import Mathlib

/-!
Verification of the braket linear-algebra core (complex scalars, bra/ket
vectors, Hermitian operators) against its specification.

Shallow embedding conventions:
* `f64` components are modelled as rationals `ℚ`; the IEEE-specific equality
  semantics needed for the NaN claim are modelled separately by `F64`/`C64f`.
* `f64::sqrt` and the decimal rendering of an `f64` are host primitives; the
  embedding abstracts them as explicit function parameters (`sqrt : ℚ → ℚ`,
  `showNum : ℚ → String`).
* Rust `for` loops are modelled as `List.foldl` over `List.finRange`,
  preserving iteration order and, crucially, whether the loop accumulates
  (`+=`) or overwrites (`=`) its output cell.
-/

namespace Braket

/-- Complex number with each component represented with `f64`s
(src/complex.rs, `struct C64 { re: f64, im: f64 }`). -/
structure C64 where
  re : ℚ
  im : ℚ
deriving DecidableEq, Repr

/-- `C64::new` (src/complex.rs). -/
def C64.new (re im : ℚ) : C64 := ⟨re, im⟩

/-- `C64::conj` (src/complex.rs): negates the imaginary part. -/
def C64.conj (c : C64) : C64 := ⟨c.re, -c.im⟩

/-- `C64::zero` (src/complex.rs). -/
def C64.zero : C64 := ⟨0, 0⟩

/-- `C64::one` (src/complex.rs). -/
def C64.one : C64 := ⟨1, 0⟩

/-- `C64::i` (src/complex.rs). -/
def C64.i : C64 := ⟨0, 1⟩

/-- `impl Add for C64` (src/complex.rs): component-wise. -/
def C64.add (a b : C64) : C64 := ⟨a.re + b.re, a.im + b.im⟩

/-- `impl Sub for C64` (src/complex.rs): component-wise. -/
def C64.sub (a b : C64) : C64 := ⟨a.re - b.re, a.im - b.im⟩

/-- `impl Mul<C64> for C64` (src/complex.rs). -/
def C64.mulC (a b : C64) : C64 :=
  ⟨a.re * b.re - a.im * b.im, a.re * b.im + a.im * b.re⟩

/-- `impl Mul<f64> for C64` (src/complex.rs): scales both components. -/
def C64.mulR (a : C64) (k : ℚ) : C64 := ⟨a.re * k, a.im * k⟩

/-- `impl Div<C64> for C64` (src/complex.rs), transcribed verbatim:
`self` is the dividend `a`, `rhs` the divisor `b`;
`denom = self.re*self.re + self.im*self.im`,
`re = (rhs.re*self.re + rhs.im*self.im) / denom`,
`im = (rhs.im*self.re - rhs.re*self.im) / denom`. -/
def C64.divC (a b : C64) : C64 :=
  let denom := a.re * a.re + a.im * a.im
  ⟨(b.re * a.re + b.im * a.im) / denom, (b.im * a.re - b.re * a.im) / denom⟩

/-- `impl Div<f64> for C64` (src/complex.rs): divides both components. -/
def C64.divR (a : C64) (k : ℚ) : C64 := ⟨a.re / k, a.im / k⟩

instance : Zero C64 := ⟨C64.zero⟩

instance : Add C64 := ⟨C64.add⟩

instance : Mul C64 := ⟨C64.mulC⟩

instance : AddCommMonoid C64 where
  add_assoc a b c := by
    show C64.add (C64.add a b) c = C64.add a (C64.add b c)
    cases a; cases b; cases c
    simp only [C64.add, C64.mk.injEq]
    constructor <;> ring
  zero_add a := by
    show C64.add C64.zero a = a
    cases a
    simp [C64.add, C64.zero]
  add_zero a := by
    show C64.add a C64.zero = a
    cases a
    simp [C64.add, C64.zero]
  add_comm a b := by
    show C64.add a b = C64.add b a
    cases a; cases b
    simp only [C64.add, C64.mk.injEq]
    constructor <;> ring
  nsmul := nsmulRec

/-- Marker for the two type states `Bra` and `Ket` (src/vector.rs uses two
empty phantom types; here a two-element index works the same way: a
`Vector .bra D` and a `Vector .ket D` are distinct types). -/
inductive Sp
| bra
| ket
deriving DecidableEq

/-- `Vector<S, D>` (src/vector.rs): a fixed-length array of `D` complex
scalars tagged with the phantom space marker. -/
structure Vector (S : Sp) (D : ℕ) where
  inner : Fin D → C64

/-- `Vector::new` (src/vector.rs): all components are `C64::default()`,
i.e. zero. -/
def Vector.new (S : Sp) (D : ℕ) : Vector S D := ⟨fun _ => C64.zero⟩

/-- `Vector::from_arr` (src/vector.rs): stores the array verbatim. -/
def Vector.from_arr (S : Sp) (D : ℕ) (arr : Fin D → C64) : Vector S D := ⟨arr⟩

/-- `Vector::<Ket, D>::to_bra` (src/vector.rs): conjugates each component
and flips the phantom tag. -/
def Vector.to_bra {D : ℕ} (v : Vector .ket D) : Vector .bra D :=
  ⟨fun i => (v.inner i).conj⟩

/-- `Vector::<Bra, D>::to_ket` (src/vector.rs): conjugates each component
and flips the phantom tag. -/
def Vector.to_ket {D : ℕ} (v : Vector .bra D) : Vector .ket D :=
  ⟨fun i => (v.inner i).conj⟩

/-- `impl Mul<&Vector<Ket, D>> for &Vector<Bra, D>` (src/vector.rs):
left fold of `acc + a * b` over the zipped components, starting from
`C64::new(0.0, 0.0)`. -/
def mulBraKet {D : ℕ} (b : Vector .bra D) (k : Vector .ket D) : C64 :=
  (List.finRange D).foldl (fun acc idx => acc + b.inner idx * k.inner idx)
    (C64.new 0 0)

/-- `OperatorError` (src/operator.rs): the single error kind. -/
inductive OperatorError
| HermitianPropertiesNotSatisfied
deriving DecidableEq, Repr

/-- `HermitianMatrix<D>` (src/operator.rs): a `D×D` grid of complex
scalars. -/
structure HermitianMatrix (D : ℕ) where
  inner : Fin D → Fin D → C64

/-- `HermitianMatrix::from_arr` (src/operator.rs): scans all `(ridx, cidx)`
pairs and returns `Err(HermitianPropertiesNotSatisfied)` on the first pair
with `arr[ridx][cidx] != arr[cidx][ridx].conj()`, otherwise wraps the grid.
The early return only affects when the error is produced, not the result,
so the scan is modelled as one decidable universal test. -/
def HermitianMatrix.from_arr {D : ℕ} (arr : Fin D → Fin D → C64) :
    Except OperatorError (HermitianMatrix D) :=
  if ∀ ridx cidx, arr ridx cidx = (arr cidx ridx).conj then
    Except.ok ⟨arr⟩
  else
    Except.error OperatorError.HermitianPropertiesNotSatisfied

/-- `impl Mul<Vector<Ket, D>> for HermitianMatrix<D>` (src/operator.rs):
row `ridx` of the output accumulates `out += m * v` over the zipped row and
ket, starting from `C64::zero()`. -/
def HermitianMatrix.mulKet {D : ℕ} (m : HermitianMatrix D)
    (k : Vector .ket D) : Vector .ket D :=
  ⟨fun ridx =>
    (List.finRange D).foldl (fun out cidx => out + m.inner ridx cidx * k.inner cidx)
      C64.zero⟩

/-- `impl Mul<&HermitianMatrix<D>> for &Vector<Bra, D>` (src/vector.rs),
transcribed loop for loop: the output starts as the default (zero) bra and
the body executes `out_bra[cidx] = b * rhs.inner[ridx][cidx]` — a plain
assignment (`=`), not an accumulation (`+=`) — for each `ridx`, `cidx`. -/
def mulBraMat {D : ℕ} (b : Vector .bra D) (m : HermitianMatrix D) :
    Vector .bra D :=
  ⟨(List.finRange D).foldl
    (fun out ridx =>
      (List.finRange D).foldl
        (fun out2 cidx => Function.update out2 cidx (b.inner ridx * m.inner ridx cidx))
        out)
    (Vector.new .bra D).inner⟩

/-- `normalize` for kets (src/vector.rs, `InnerProductDualSpace for
Vector<Ket, D>`): `ip = inner_product(self, self.to_bra())` which is
`to_bra(self) * self`; `magnitude = (ip.real() + ip.imag()).sqrt()`; each
component is divided (`Div<f64>`) by the magnitude. `f64::sqrt` is
abstracted as the parameter `sqrt`. -/
def Vector.normalizeKet {D : ℕ} (sqrt : ℚ → ℚ) (v : Vector .ket D) :
    Vector .ket D :=
  let ip := mulBraKet v.to_bra v
  let magnitude := sqrt (ip.re + ip.im)
  ⟨fun i => (v.inner i).divR magnitude⟩

/-- `normalize` for bras (src/vector.rs, `InnerProductDualSpace for
Vector<Bra, D>`): `ip = self * self.to_ket()`; same magnitude formula and
component-wise division as the ket case. -/
def Vector.normalizeBra {D : ℕ} (sqrt : ℚ → ℚ) (v : Vector .bra D) :
    Vector .bra D :=
  let ip := mulBraKet v v.to_ket
  let magnitude := sqrt (ip.re + ip.im)
  ⟨fun i => (v.inner i).divR magnitude⟩

/-- Modelled from the spec: vector addition. The `Add` impl for `Vector`
is not present under src/ (only examples/spin.rs calls it); the spec says
addition is defined component-wise on same-tag, same-dimension vectors. -/
def Vector.add {S : Sp} {D : ℕ} (u v : Vector S D) : Vector S D :=
  ⟨fun i => u.inner i + v.inner i⟩

/-- Modelled from the spec: vector subtraction. The `Sub` impl for `Vector`
is not present under src/ (only examples/spin.rs calls it); the spec says
subtraction is defined component-wise on same-tag, same-dimension
vectors. -/
def Vector.sub {S : Sp} {D : ℕ} (u v : Vector S D) : Vector S D :=
  ⟨fun i => (u.inner i).sub (v.inner i)⟩

/-- Modelled from the spec: real-scalar multiplication of a vector. The
`Mul<Vector>` impl for `f64` is not present under src/ (only
examples/spin.rs calls it); the spec says scalar multiplication scales
every component. -/
def Vector.smulR {S : Sp} {D : ℕ} (k : ℚ) (v : Vector S D) : Vector S D :=
  ⟨fun i => (v.inner i).mulR k⟩

/-- Modelled from the spec: complex-scalar multiplication of a vector. The
`Mul<Vector>` impl for `C64` is not present under src/ (only
examples/spin.rs calls it); the spec says scalar multiplication scales
every component. -/
def Vector.smulC {S : Sp} {D : ℕ} (k : C64) (v : Vector S D) : Vector S D :=
  ⟨fun i => k * v.inner i⟩

/-- `impl fmt::Display for C64` (src/complex.rs): `"{} {} {}i"` with the
real part, a sign chosen by `imag() >= 0.0`, and `imag().abs()`. The host
decimal rendering of an `f64` is abstracted as `showNum`. -/
def C64.display (showNum : ℚ → String) (c : C64) : String :=
  let join_op := if 0 ≤ c.im then "+" else "-"
  showNum c.re ++ " " ++ join_op ++ " " ++ showNum |c.im| ++ "i"

/-- Per-component rendering inside `impl fmt::Display for Vector<Bra, D>`
and `Vector<Ket, D>` (src/vector.rs): `"{} {} {}i"` with the real part, a
sign chosen by `imag() >= 0.0`, and `imag()` itself — unlike
`C64`'s own `Display`, the absolute value is NOT taken. -/
def vecElemFmt (showNum : ℚ → String) (c : C64) : String :=
  let join_op := if 0 ≤ c.im then "+" else "-"
  showNum c.re ++ " " ++ join_op ++ " " ++ showNum c.im ++ "i"

/-- `impl fmt::Display for Vector<Bra, D>` (src/vector.rs): writes
`"(<|) ["`, then each of the first `D-1` components followed by `", "`,
then the last component, then `"]"`. The source indexes `self[D - 1]`, so
it is only meaningful for nonzero dimension; the dimension is written
`D + 1` accordingly. -/
def Vector.displayBra {D : ℕ} (showNum : ℚ → String)
    (v : Vector .bra (D + 1)) : String :=
  "(<|) [" ++
    (List.finRange D).foldl
      (fun s idx => s ++ vecElemFmt showNum (v.inner idx.castSucc) ++ ", ") "" ++
    vecElemFmt showNum (v.inner (Fin.last D)) ++ "]"

/-- `impl fmt::Display for Vector<Ket, D>` (src/vector.rs): identical to
the bra case except for the `"(|>) ["` marker. -/
def Vector.displayKet {D : ℕ} (showNum : ℚ → String)
    (v : Vector .ket (D + 1)) : String :=
  "(|>) [" ++
    (List.finRange D).foldl
      (fun s idx => s ++ vecElemFmt showNum (v.inner idx.castSucc) ++ ", ") "" ++
    vecElemFmt showNum (v.inner (Fin.last D)) ++ "]"

/-- Comma-separated concatenation of a list of rendered components, used to
state what "bracketed, comma-separated list" means. -/
def commaSep : List String → String
| [] => ""
| [x] => x
| x :: y :: xs => x ++ ", " ++ commaSep (y :: xs)

/-- A concrete number renderer for closed evaluations of the display
functions. -/
def showQ (q : ℚ) : String := toString q

/-- An `f64` as far as the NaN claim is concerned: either NaN or an
ordinary (rational-modelled) number. -/
inductive F64
| nan
| num (q : ℚ)
deriving DecidableEq, Repr

/-- IEEE `==` on `f64`: NaN compares unequal to everything, itself
included; ordinary numbers compare by value. -/
def F64.ieeeEq : F64 → F64 → Bool
| .num a, .num b => a == b
| _, _ => false

/-- IEEE negation: `-NaN` is NaN. -/
def F64.neg : F64 → F64
| .nan => .nan
| .num q => .num (-q)

/-- `C64` with NaN-aware components, for the claims that hinge on IEEE
equality semantics. -/
structure C64f where
  re : F64
  im : F64
deriving DecidableEq, Repr

/-- The derived `PartialEq` of `C64` (src/complex.rs): component-wise `f64`
equality. -/
def C64f.ieeeEq (a b : C64f) : Bool :=
  F64.ieeeEq a.re b.re && F64.ieeeEq a.im b.im

/-- `C64::conj` on NaN-aware scalars. -/
def C64f.conj (c : C64f) : C64f := ⟨c.re, c.im.neg⟩

/-- Whether a NaN-aware scalar has a NaN component. -/
def C64f.hasNaN (c : C64f) : Prop := c.re = F64.nan ∨ c.im = F64.nan

instance : DecidablePred C64f.hasNaN := fun c =>
  decidable_of_iff (c.re = F64.nan ∨ c.im = F64.nan) Iff.rfl

/-- `HermitianMatrix<D>` over NaN-aware scalars. -/
structure HermitianMatrixF (D : ℕ) where
  inner : Fin D → Fin D → C64f

/-- `HermitianMatrix::from_arr` (src/operator.rs) with the comparison
`arr[ridx][cidx] != arr[cidx][ridx].conj()` interpreted by the derived
`PartialEq`, i.e. IEEE equality on each component. -/
def HermitianMatrixF.from_arr {D : ℕ} (arr : Fin D → Fin D → C64f) :
    Except OperatorError (HermitianMatrixF D) :=
  if ∀ ridx cidx, C64f.ieeeEq (arr ridx cidx) ((arr cidx ridx).conj) = true then
    Except.ok ⟨arr⟩
  else
    Except.error OperatorError.HermitianPropertiesNotSatisfied

/-- Concrete all-ones bra of dimension 2. -/
def exBra2 : Vector .bra 2 := ⟨fun _ => C64.one⟩

/-- Concrete 2×2 identity grid (a Hermitian matrix). -/
def exOp2 : HermitianMatrix 2 := ⟨fun i j => if i = j then C64.one else C64.zero⟩

/-- A 2×2 grid whose off-diagonal entries `(1, 1)` and `(1, 1)` are not
mutual conjugates, so the Hermitian check must fail. -/
def badGrid2 : Fin 2 → Fin 2 → C64 := fun i j =>
  if i = j then C64.one else ⟨1, 1⟩

/-- The spec's Pauli-Z 2×2 grid: diagonal `1, −1`, zero off-diagonal. -/
def pauliZ : Fin 2 → Fin 2 → C64 := fun i j =>
  if i = j then (if i.val = 0 then C64.one else ⟨-1, 0⟩) else C64.zero

/-- Concrete scalar with negative imaginary part, for the rendering
claims. -/
def exC9 : C64 := ⟨1, -1⟩

/-- Concrete one-component bra holding `exC9`. -/
def exBraC9 : Vector .bra 1 := ⟨fun _ => exC9⟩

/-- Concrete 1×1 grid whose single entry has a NaN real part. -/
def nanGrid1 : Fin 1 → Fin 1 → C64f := fun _ _ => ⟨F64.nan, F64.num 0⟩

/-! ## Helper lemmas -/

/-- A left fold that adds `g x` at each step computes `init` plus the list
sum of the images. -/
theorem foldl_add_eq_sum {α : Type} (g : α → C64) :
    ∀ (l : List α) (init : C64),
      l.foldl (fun acc x => acc + g x) init = init + (l.map g).sum := by
  intro l
  induction l with
  | nil => intro init; simp
  | cons a l ih =>
    intro init
    simp only [List.foldl_cons, List.map_cons, List.sum_cons, ih, add_assoc]

/-- The accumulating loops of the source compute the `Finset` sum of their
summands. -/
theorem sumFold {D : ℕ} (f : Fin D → C64) :
    (List.finRange D).foldl (fun acc i => acc + f i) 0 = ∑ i, f i := by
  rw [foldl_add_eq_sum, Fin.sum_univ_def, zero_add]

/-- `mulBraKet` is the sum of the component-wise products. -/
theorem mulBraKet_eq_sum {D : ℕ} (b : Vector .bra D) (k : Vector .ket D) :
    mulBraKet b k = ∑ i, b.inner i * k.inner i :=
  sumFold _

/-- Applying a fold of pointwise updates: every index in the list ends up
holding `h`, all others keep the initial value. -/
theorem foldl_update_apply {D : ℕ} (h : Fin D → C64) :
    ∀ (l : List (Fin D)) (g0 : Fin D → C64) (x : Fin D),
      (l.foldl (fun g c => Function.update g c (h c)) g0) x
        = if x ∈ l then h x else g0 x := by
  intro l
  induction l with
  | nil => intro g0 x; simp
  | cons a l ih =>
    intro g0 x
    simp only [List.foldl_cons, ih, List.mem_cons]
    by_cases hx : x ∈ l
    · simp [hx]
    · by_cases hxa : x = a
      · subst hxa
        simp [hx, Function.update_same]
      · simp [hx, hxa, Function.update_noteq hxa]

/-- A fold of pointwise updates over all indices replaces the state
entirely. -/
theorem foldl_update_all {D : ℕ} (h g0 : Fin D → C64) :
    (List.finRange D).foldl (fun g c => Function.update g c (h c)) g0 = h := by
  funext x
  rw [foldl_update_apply]
  simp [List.mem_finRange]

/-- A fold whose step ignores the accumulator returns the image of the last
element. -/
theorem foldl_step_last {β γ : Type} (step : β → γ → β) (H : γ → β)
    (hstep : ∀ g r, step g r = H r) (l : List γ) (a : γ) (g0 : β) :
    (l ++ [a]).foldl step g0 = H a := by
  rw [List.foldl_append]
  simp [hstep]

/-- Unfolding `mulBraMat` to its double fold. -/
theorem mulBraMat_inner {D : ℕ} (b : Vector .bra D) (m : HermitianMatrix D) :
    (mulBraMat b m).inner
      = (List.finRange D).foldl
          (fun out ridx =>
            (List.finRange D).foldl
              (fun out2 cidx =>
                Function.update out2 cidx (b.inner ridx * m.inner ridx cidx))
              out)
          (fun _ => C64.zero) := rfl

/-- What the `Bra × HermitianMatrix` loop actually computes: because the
inner loop assigns (rather than accumulates), each outer iteration
overwrites the whole output, and only the last row survives. -/
theorem mulBraMat_apply {D : ℕ} (b : Vector .bra (D + 1))
    (m : HermitianMatrix (D + 1)) :
    (mulBraMat b m).inner
      = fun cidx => b.inner (Fin.last D) * m.inner (Fin.last D) cidx := by
  rw [mulBraMat_inner]
  have hstep : ∀ (g : Fin (D + 1) → C64) (ridx : Fin (D + 1)),
      (List.finRange (D + 1)).foldl
        (fun out2 cidx =>
          Function.update out2 cidx (b.inner ridx * m.inner ridx cidx)) g
        = fun cidx => b.inner ridx * m.inner ridx cidx :=
    fun g ridx => foldl_update_all _ g
  calc (List.finRange (D + 1)).foldl _ (fun _ => C64.zero)
      = ((List.finRange D).map Fin.castSucc ++ [Fin.last D]).foldl
          (fun out ridx =>
            (List.finRange (D + 1)).foldl
              (fun out2 cidx =>
                Function.update out2 cidx (b.inner ridx * m.inner ridx cidx))
              out)
          (fun _ => C64.zero) := by rw [← List.finRange_succ_last]
    _ = fun cidx => b.inner (Fin.last D) * m.inner (Fin.last D) cidx :=
        foldl_step_last _ _ hstep _ _ _

/-- Conjugation is an involution on the scalars. -/
theorem C64.conj_conj (c : C64) : c.conj.conj = c := by
  cases c
  simp [C64.conj]

/-- `commaSep` peels off the head of a list with a nonempty tail. -/
theorem commaSep_cons (x : String) (l : List String) (hl : l ≠ []) :
    commaSep (x :: l) = x ++ ", " ++ commaSep l := by
  cases l with
  | nil => exact absurd rfl hl
  | cons y ys => rfl

/-- The source's display loop (every element but the last followed by
`", "`, then the last element) produces a comma-separated list. -/
theorem foldl_commaSep {α : Type} (g : α → String) :
    ∀ (l : List α) (pre tl : String),
      l.foldl (fun s e => s ++ g e ++ ", ") pre ++ tl
        = pre ++ commaSep (l.map g ++ [tl]) := by
  intro l
  induction l with
  | nil => intro pre tl; simp [commaSep]
  | cons a l ih =>
    intro pre tl
    rw [List.foldl_cons, ih, List.map_cons, List.cons_append,
      commaSep_cons (g a) (List.map g l ++ [tl]) (by simp)]
    simp [String.append_assoc]

/-- The first `D` indices of `Fin (D+1)` followed by the last one enumerate
all of them. -/
theorem map_castSucc_append_last {D : ℕ} (f : Fin (D + 1) → String) :
    (List.finRange D).map (fun idx => f idx.castSucc) ++ [f (Fin.last D)]
      = (List.finRange (D + 1)).map f := by
  rw [List.finRange_succ_last, List.map_append, List.map_map]
  simp [Function.comp]

/-- `displayBra` as a bracketed comma-separated list of rendered
components behind the `"(<|) "` marker. -/
theorem displayBra_eq {D : ℕ} (showNum : ℚ → String) (v : Vector .bra (D + 1)) :
    Vector.displayBra showNum v
      = "(<|) [" ++ commaSep ((List.finRange (D + 1)).map
          (fun i => vecElemFmt showNum (v.inner i))) ++ "]" := by
  unfold Vector.displayBra
  rw [String.append_assoc "(<|) [", foldl_commaSep]
  rw [show ∀ s : String, "" ++ s = s from fun _ => rfl]
  rw [map_castSucc_append_last (fun i => vecElemFmt showNum (v.inner i))]

/-- `displayKet` as a bracketed comma-separated list of rendered
components behind the `"(|>) "` marker. -/
theorem displayKet_eq {D : ℕ} (showNum : ℚ → String) (v : Vector .ket (D + 1)) :
    Vector.displayKet showNum v
      = "(|>) [" ++ commaSep ((List.finRange (D + 1)).map
          (fun i => vecElemFmt showNum (v.inner i))) ++ "]" := by
  unfold Vector.displayKet
  rw [String.append_assoc "(|>) [", foldl_commaSep]
  rw [show ∀ s : String, "" ++ s = s from fun _ => rfl]
  rw [map_castSucc_append_last (fun i => vecElemFmt showNum (v.inner i))]

/-- A scalar with a NaN component is IEEE-unequal to everything. -/
theorem ieeeEq_false_of_hasNaN {c : C64f} (h : c.hasNaN) (x : C64f) :
    C64f.ieeeEq c x = false := by
  rcases h with h | h
  · have hre : F64.ieeeEq c.re x.re = false := by
      rw [h]; cases x.re <;> rfl
    simp [C64f.ieeeEq, hre]
  · have him : F64.ieeeEq c.im x.im = false := by
      rw [h]; cases x.im <;> rfl
    simp [C64f.ieeeEq, him]

/-! ## Claims -/

/-- C1: the claim says the dual action of an operator on a bra yields
`out[j] = Σ_i b[i] * M[i][j]`. The code does not: its inner loop assigns
(`=`) instead of accumulating (`+=`), so every outer iteration overwrites
the whole output and only the last row survives. At the all-ones bra and
the 2×2 identity operator, column 0 of the code's result is `0`, while the
claimed sum is `1`; in general the code computes
`out[j] = b[D-1] * M[D-1][j]`. -/
theorem c1_dual_action_eval :
    (mulBraMat exBra2 exOp2).inner 0 = C64.zero
    ∧ (∑ i, exBra2.inner i * exOp2.inner i 0) = C64.one
    ∧ C64.zero ≠ C64.one
    ∧ ∀ (D : ℕ) (b : Vector .bra (D + 1)) (mm : HermitianMatrix (D + 1))
        (cidx : Fin (D + 1)),
        (mulBraMat b mm).inner cidx
          = b.inner (Fin.last D) * mm.inner (Fin.last D) cidx := by
  refine ⟨?_, ?_, ?_, fun D b mm cidx => ?_⟩
  · rw [show (mulBraMat exBra2 exOp2).inner = _ from mulBraMat_apply exBra2 exOp2]
    show exBra2.inner (Fin.last 1) * exOp2.inner (Fin.last 1) 0 = C64.zero
    have h10 : exOp2.inner (Fin.last 1) 0 = C64.zero := by
      show (if (Fin.last 1 : Fin 2) = 0 then C64.one else C64.zero) = C64.zero
      rw [if_neg (by decide)]
    rw [h10]
    show C64.mulC C64.one C64.zero = C64.zero
    simp [C64.mulC, C64.one, C64.zero]
  · rw [Fin.sum_univ_two]
    have h00 : exOp2.inner 0 0 = C64.one := by
      show (if (0 : Fin 2) = 0 then C64.one else C64.zero) = C64.one
      rw [if_pos rfl]
    have h10 : exOp2.inner 1 0 = C64.zero := by
      show (if (1 : Fin 2) = 0 then C64.one else C64.zero) = C64.zero
      rw [if_neg (by decide)]
    rw [h00, h10]
    show C64.add (C64.mulC C64.one C64.one) (C64.mulC C64.one C64.zero) = C64.one
    simp [C64.add, C64.mulC, C64.one, C64.zero]
  · intro h
    exact absurd (congrArg C64.re h) (by norm_num [C64.zero, C64.one])
  · rw [mulBraMat_apply b mm]

/-- C2: addition, subtraction, and real/complex scalar multiplication of
same-tag, same-dimension vectors are component-wise (the vector arithmetic
impls are modelled from the spec, as only the example program calls
them). -/
theorem c2_linear_combination :
    ∀ (S : Sp) (D : ℕ) (u v : Vector S D) (i : Fin D) (k : ℚ) (c : C64),
      (u.add v).inner i = u.inner i + v.inner i
      ∧ (u.sub v).inner i = (u.inner i).sub (v.inner i)
      ∧ (Vector.smulR k v).inner i = (v.inner i).mulR k
      ∧ (Vector.smulC c v).inner i = c * v.inner i :=
  fun _ _ _ _ _ _ _ => ⟨rfl, rfl, rfl, rfl⟩

/-- C3: `from_arr` succeeds (returning exactly the given grid) iff
`arr[i][j] = conj(arr[j][i])` for all pairs, fails with the single error
kind `HermitianPropertiesNotSatisfied` otherwise, and every constructed
matrix satisfies the Hermitian invariant. -/
theorem c3_hermitian_gate :
    ∀ (D : ℕ) (arr : Fin D → Fin D → C64),
      (HermitianMatrix.from_arr arr = Except.ok ⟨arr⟩
        ↔ ∀ i j, arr i j = (arr j i).conj)
      ∧ (¬(∀ i j, arr i j = (arr j i).conj) →
          HermitianMatrix.from_arr arr
            = Except.error OperatorError.HermitianPropertiesNotSatisfied)
      ∧ (∀ m : HermitianMatrix D, HermitianMatrix.from_arr arr = Except.ok m →
          ∀ i j, m.inner i j = (m.inner j i).conj) := by
  intro D arr
  by_cases h : ∀ i j, arr i j = (arr j i).conj
  · refine ⟨⟨fun _ => h, fun _ => ?_⟩, fun hc => absurd h hc, fun m hm i j => ?_⟩
    · unfold HermitianMatrix.from_arr
      rw [if_pos h]
    · unfold HermitianMatrix.from_arr at hm
      rw [if_pos h] at hm
      injection hm with h2
      subst h2
      exact h i j
  · refine ⟨⟨fun hok => ?_, fun hh => absurd hh h⟩, fun _ => ?_, fun m hm i j => ?_⟩
    · unfold HermitianMatrix.from_arr at hok
      rw [if_neg h] at hok
      exact Except.noConfusion hok
    · unfold HermitianMatrix.from_arr
      rw [if_neg h]
    · unfold HermitianMatrix.from_arr at hm
      rw [if_neg h] at hm
      exact Except.noConfusion hm

/-- Witness for C3: the Pauli-Z grid is accepted and a grid with
non-conjugate off-diagonal entries is rejected. -/
theorem c3_hermitian_gate_witness :
    HermitianMatrix.from_arr pauliZ = Except.ok ⟨pauliZ⟩
    ∧ HermitianMatrix.from_arr badGrid2
        = Except.error OperatorError.HermitianPropertiesNotSatisfied :=
  ⟨(c3_hermitian_gate 2 pauliZ).1.mpr (by decide),
   (c3_hermitian_gate 2 badGrid2).2.1 (by decide)⟩

/-- C4: `normalize` computes `ip = inner_product(v, conjugate_transpose(v))`,
then `m = sqrt(ip.re + ip.im)` (the sum of the parts, not the modulus), and
divides every component by `m`; this holds for both kets and bras. -/
theorem c4_normalize_formula :
    ∀ (sqrt : ℚ → ℚ) (D : ℕ) (v : Vector .ket D) (w : Vector .bra D)
      (i j : Fin D),
      (Vector.normalizeKet sqrt v).inner i
        = (v.inner i).divR
            (sqrt ((∑ t, (v.inner t).conj * v.inner t).re
              + (∑ t, (v.inner t).conj * v.inner t).im))
      ∧ (Vector.normalizeBra sqrt w).inner j
        = (w.inner j).divR
            (sqrt ((∑ t, w.inner t * (w.inner t).conj).re
              + (∑ t, w.inner t * (w.inner t).conj).im)) := by
  intro sqrt D v w i j
  constructor
  · show (v.inner i).divR
      (sqrt ((mulBraKet v.to_bra v).re + (mulBraKet v.to_bra v).im)) = _
    rw [mulBraKet_eq_sum]
    rfl
  · show (w.inner j).divR
      (sqrt ((mulBraKet w w.to_ket).re + (mulBraKet w w.to_ket).im)) = _
    rw [mulBraKet_eq_sum]
    rfl

/-- C5: complex division `a / b` computes
`re' = (b.re*a.re + b.im*a.im)/denom`, `im' = (b.im*a.re − b.re*a.im)/denom`
with `denom = a.re² + a.im²` — the squared magnitude of the dividend `a`,
i.e. `b * conj(a)` scaled by `1/|a|²`. -/
theorem c5_complex_div_formula :
    ∀ a b : C64,
      C64.divC a b
        = ⟨(b.re * a.re + b.im * a.im) / (a.re * a.re + a.im * a.im),
           (b.im * a.re - b.re * a.im) / (a.re * a.re + a.im * a.im)⟩
      ∧ C64.divC a b
        = (C64.mulC b (C64.conj a)).divR (a.re * a.re + a.im * a.im) := by
  intro a b
  refine ⟨rfl, ?_⟩
  unfold C64.divC C64.mulC C64.conj C64.divR
  simp only [C64.mk.injEq]
  constructor <;> ring

/-- C6: applying a Hermitian operator to a ket is the standard
matrix–vector product `out[i] = Σ_j op[i][j] * ket[j]`. -/
theorem c6_operator_apply :
    ∀ (D : ℕ) (m : HermitianMatrix D) (k : Vector .ket D) (i : Fin D),
      (m.mulKet k).inner i = ∑ j, m.inner i j * k.inner j :=
  fun _ _ _ _ => sumFold _

/-- C7: the inner product of a bra and a ket is `Σ_i bra[i] * ket[i]`, with
no additional conjugation of the bra's components. -/
theorem c7_inner_product :
    ∀ (D : ℕ) (b : Vector .bra D) (k : Vector .ket D),
      mulBraKet b k = ∑ i, b.inner i * k.inner i :=
  fun _ b k => mulBraKet_eq_sum b k

/-- C8: the conjugate transpose conjugates each component (dimension and
ordering unchanged), and applying it twice returns the original ket — here
exactly, which implies the claimed approximate equality. -/
theorem c8_conjugate_transpose :
    ∀ (D : ℕ) (v : Vector .ket D) (i : Fin D),
      v.to_bra.to_ket = v ∧ v.to_bra.inner i = (v.inner i).conj := by
  intro D v i
  refine ⟨?_, rfl⟩
  cases v with
  | mk f =>
    unfold Vector.to_bra Vector.to_ket
    simp only [C64.conj_conj]

/-- C9 (amended): a vector renders as its tag marker, then a bracketed
comma-separated list of components; each component renders as
`"<re> <sign> <im>i"` where the sign is `+` iff the imaginary part is
non-negative (including zero), but — unlike the scalar `Display`, against
which the original claim fails — the printed imaginary part is the raw
value, with no absolute value taken. The two formats agree exactly when
the imaginary part is non-negative. -/
theorem c9_display_amended :
    ∀ (showNum : ℚ → String) (D : ℕ) (vb : Vector .bra (D + 1))
      (vk : Vector .ket (D + 1)),
      Vector.displayBra showNum vb
        = "(<|) [" ++ commaSep ((List.finRange (D + 1)).map
            (fun i => vecElemFmt showNum (vb.inner i))) ++ "]"
      ∧ Vector.displayKet showNum vk
        = "(|>) [" ++ commaSep ((List.finRange (D + 1)).map
            (fun i => vecElemFmt showNum (vk.inner i))) ++ "]"
      ∧ (∀ c : C64, vecElemFmt showNum c
          = showNum c.re ++ " " ++ (if 0 ≤ c.im then "+" else "-")
            ++ " " ++ showNum c.im ++ "i")
      ∧ (∀ c : C64, 0 ≤ c.im → vecElemFmt showNum c = C64.display showNum c) := by
  intro showNum D vb vk
  refine ⟨displayBra_eq showNum vb, displayKet_eq showNum vk,
    fun c => rfl, fun c hc => ?_⟩
  unfold vecElemFmt C64.display
  rw [abs_of_nonneg hc]

/-- Counterexample to C9 as stated: the one-component bra holding `1 − 1i`
does not render its component in the scalar format (the scalar format
prints `|−1| = 1` after the minus sign; the vector rendering prints `−1`
itself). -/
theorem c9_display_counterexample :
    Vector.displayBra showQ exBraC9
      ≠ "(<|) [" ++ C64.display showQ exC9 ++ "]" := by
  decide

/-- Witness for C9: at a component with non-negative imaginary part the
vector rendering does coincide with the scalar format. -/
theorem c9_display_witness :
    vecElemFmt showQ (C64.new 1 1) = C64.display showQ (C64.new 1 1) :=
  (c9_display_amended showQ 0 exBraC9 ⟨fun _ => C64.one⟩).2.2.2
    (C64.new 1 1) (by decide)

/-- C10: under IEEE equality a grid containing a NaN component fails the
Hermitian symmetry comparison, so `from_arr` rejects it; consequently no
constructed operator contains a NaN entry. -/
theorem c10_nan_rejected :
    ∀ (D : ℕ) (arr : Fin D → Fin D → C64f),
      ((∃ i j, (arr i j).hasNaN) →
        HermitianMatrixF.from_arr arr
          = Except.error OperatorError.HermitianPropertiesNotSatisfied)
      ∧ (∀ mf : HermitianMatrixF D, HermitianMatrixF.from_arr arr = Except.ok mf →
          ∀ i j, ¬(mf.inner i j).hasNaN) := by
  intro D arr
  constructor
  · rintro ⟨i, j, hij⟩
    unfold HermitianMatrixF.from_arr
    rw [if_neg]
    intro hall
    have hfalse := hall i j
    rw [ieeeEq_false_of_hasNaN hij] at hfalse
    exact Bool.false_ne_true hfalse
  · intro mf hok i j hnan
    unfold HermitianMatrixF.from_arr at hok
    by_cases h : ∀ ridx cidx, C64f.ieeeEq (arr ridx cidx) ((arr cidx ridx).conj) = true
    · rw [if_pos h] at hok
      injection hok with h2
      subst h2
      have hnan' : (arr i j).hasNaN := hnan
      have htrue := h i j
      rw [ieeeEq_false_of_hasNaN hnan'] at htrue
      exact Bool.false_ne_true htrue
    · rw [if_neg h] at hok
      exact Except.noConfusion hok

/-- Witness for C10: the 1×1 grid with a NaN real part is rejected. -/
theorem c10_nan_rejected_witness :
    HermitianMatrixF.from_arr nanGrid1
      = Except.error OperatorError.HermitianPropertiesNotSatisfied :=
  (c10_nan_rejected 1 nanGrid1).1 ⟨0, 0, Or.inl rfl⟩

end Braket
